import Mathlib

/-!
Shallow embedding of the IIR filter design pipeline of the `sci-rs` repository
(`src/sci-rs/src/signal/filter/design/iirfilter.rs`, with the axis-validation
collaborator `src/sci-rs/src/signal/filter/arraytools.rs` and the error type of
`src/sci-rs-core/src/lib.rs`), together with theorems settling the frozen
claims about it.

Floating point (`F: Float + RealField`) is idealized as the real numbers `ℝ`;
Rust panics (`panic!`, `todo!`, `Option::unwrap` on `None`) are modelled as
`Except.error` values carrying the panic message.
-/

namespace SciRs

open Complex Real

/-- Rust `(a..b).step_by(2)` over `isize`: the elements `a, a + 2, …` that are
strictly below `b`. -/
def stepBy2 (a b : ℤ) : List ℤ :=
  (List.range ((b - a + 1) / 2).toNat).map fun i : ℕ => a + 2 * (i : ℤ)

/-- The index sequence `((-(n as isize) + 1)..n).step_by(2)`, i.e. the centered
sequence `{-n+1, -n+3, …, n-1}` used by all three prototype generators. -/
def centeredSeq (n : ℕ) : List ℤ := stepBy2 (-(n : ℤ) + 1) n

/-- `ZpkFormatFilter` of `design/zpk.rs`: zeros, poles, gain. -/
structure ZpkFormatFilter where
  z : List ℂ
  p : List ℂ
  k : ℝ

/-- `buttap_dyn` (iirfilter.rs lines 221-237): poles `-exp(Complex(0, π·m/(2·order)))`
over the centered sequence, no zeros, gain one. -/
noncomputable def buttap_dyn (order : ℕ) : ZpkFormatFilter :=
  { z := []
    p := (centeredSeq order).map fun i : ℤ =>
      -Complex.exp ⟨0, Real.pi * (i : ℝ) / (2 * (order : ℝ))⟩
    k := 1 }

/-- `cheb1ap_dyn` (iirfilter.rs lines 250-284). -/
noncomputable def cheb1ap_dyn (n : ℕ) (rp : ℝ) : ZpkFormatFilter :=
  if n = 0 then
    { z := [], p := [], k := (10 : ℝ) ^ (-rp / 20) }
  else
    let eps := Real.sqrt ((10 : ℝ) ^ (rp / 10) - 1)
    let mu := Real.arsinh (1 / eps) / (n : ℝ)
    let p : List ℂ := (centeredSeq n).map fun m : ℤ =>
      -Complex.sinh ⟨mu, Real.pi * ((m : ℝ) / (2 * (n : ℝ)))⟩
    let k0 := ((p.map fun z => -z).foldl (· * ·) 1).re
    { z := []
      p := p
      k := if n % 2 = 0 then k0 / Real.sqrt (1 + eps * eps) else k0 }

/-- The `m` index list of `cheb2ap_dyn`: for odd `n` the chained ranges
`((-n+1)..0).step_by(2)` and `(2..n).step_by(2)`, for even `n` the full
centered range. -/
def cheb2Ms (n : ℕ) : List ℤ :=
  if n % 2 = 1 then stepBy2 (-(n : ℤ) + 1) 0 ++ stepBy2 2 n
  else centeredSeq n

/-- `cheb2ap_dyn` (iirfilter.rs lines 387-441). -/
noncomputable def cheb2ap_dyn (n : ℕ) (rs : ℝ) : ZpkFormatFilter :=
  if n = 0 then
    { z := [], p := [], k := 1 }
  else
    let de := 1 / Real.sqrt ((10 : ℝ) ^ ((1 / 10 : ℝ) * rs) - 1)
    let mu := Real.arsinh (1 / de) / (n : ℝ)
    let z : List ℂ := (cheb2Ms n).map fun m : ℤ =>
      -(starRingEnd ℂ) (Complex.I / ((Real.sin ((m : ℝ) * (Real.pi / (2 * (n : ℝ))))) : ℂ))
    let p : List ℂ := (centeredSeq n).map fun m : ℤ =>
      let z1 := -Complex.exp ⟨0, Real.pi * (m : ℝ) / (2 * (n : ℝ))⟩
      (1 : ℂ) / ⟨Real.sinh mu * z1.re, Real.cosh mu * z1.im⟩
    let k := (((p.map fun x => -x).foldl (· * ·) 1)
      / ((z.map fun x => -x).foldl (· * ·) 1)).re
    { z := z, p := p, k := k }

/-! ### Generic facts about the index sequences -/

theorem stepBy2_length (a b : ℤ) : (stepBy2 a b).length = ((b - a + 1) / 2).toNat := by
  rw [stepBy2, List.length_map, List.length_range]

theorem stepBy2_getElem (a b : ℤ) (i : ℕ) (h : i < (stepBy2 a b).length) :
    (stepBy2 a b)[i] = a + 2 * i := by
  simp only [stepBy2, List.getElem_map, List.getElem_range]

theorem centeredSeq_length (n : ℕ) : (centeredSeq n).length = n := by
  rw [centeredSeq, stepBy2_length]
  omega

theorem centeredSeq_getElem (n i : ℕ) (h : i < (centeredSeq n).length) :
    (centeredSeq n)[i] = -(n : ℤ) + 1 + 2 * i :=
  stepBy2_getElem _ _ i h

theorem mem_stepBy2 {a b x : ℤ} (hx : x ∈ stepBy2 a b) :
    ∃ i : ℕ, i < ((b - a + 1) / 2).toNat ∧ x = a + 2 * i := by
  rw [stepBy2] at hx
  obtain ⟨i, hi, hxi⟩ := List.mem_map.mp hx
  rw [List.mem_range] at hi
  exact ⟨i, hi, hxi.symm⟩

theorem mem_centeredSeq {n : ℕ} {x : ℤ} (hx : x ∈ centeredSeq n) :
    -(n : ℤ) + 1 ≤ x ∧ x ≤ (n : ℤ) - 1 ∧ (x + (n : ℤ) + 1) % 2 = 0 := by
  obtain ⟨i, hi, rfl⟩ := mem_stepBy2 hx
  omega

/-- Negating the centered sequence reverses it. -/
theorem centeredSeq_map_neg (n : ℕ) :
    (centeredSeq n).map (fun m => -m) = (centeredSeq n).reverse := by
  have hlen := centeredSeq_length n
  apply List.ext_getElem (by simp)
  intro i h₁ h₂
  simp only [List.getElem_map, List.getElem_reverse]
  rw [centeredSeq_getElem, centeredSeq_getElem]
  rw [List.length_map, hlen] at h₁
  rw [hlen]
  omega

theorem centeredSeq_zero : centeredSeq 0 = [] := rfl

/-! ### Complex helper identities -/

theorem mk_zero_eq_mul_I (θ : ℝ) : (⟨0, θ⟩ : ℂ) = (θ : ℂ) * Complex.I := by
  rw [Complex.mk_eq_add_mul_I]
  simp

theorem neg_exp_mk_re (θ : ℝ) : (-Complex.exp ⟨0, θ⟩).re = -Real.cos θ := by
  rw [Complex.neg_re, Complex.exp_re]
  simp

theorem neg_exp_mk_im (θ : ℝ) : (-Complex.exp ⟨0, θ⟩).im = -Real.sin θ := by
  rw [Complex.neg_im, Complex.exp_im]
  simp

theorem sinh_mk (a b : ℝ) : Complex.sinh ⟨a, b⟩ =
    ⟨Real.sinh a * Real.cos b, Real.cosh a * Real.sin b⟩ := by
  rw [Complex.mk_eq_add_mul_I, Complex.sinh_add, Complex.sinh_mul_I, Complex.cosh_mul_I,
    ← Complex.ofReal_sinh, ← Complex.ofReal_cosh, ← Complex.ofReal_sin, ← Complex.ofReal_cos]
  apply Complex.ext <;>
    simp only [Complex.add_re, Complex.add_im, Complex.mul_re, Complex.mul_im,
      Complex.ofReal_re, Complex.ofReal_im, Complex.I_re, Complex.I_im] <;> ring

theorem conj_mk (a b : ℝ) : (starRingEnd ℂ) ⟨a, b⟩ = ⟨a, -b⟩ := by
  apply Complex.ext <;> simp

theorem conj_neg_exp_mk (θ : ℝ) :
    (starRingEnd ℂ) (-Complex.exp ⟨0, θ⟩) = -Complex.exp ⟨0, -θ⟩ := by
  rw [map_neg, ← Complex.exp_conj, conj_mk]

/-! ### C4: Butterworth prototype -/

/-- C4: for every `N ≥ 1`, `buttap_dyn(N)` returns exactly `N` poles,
the pole for index `m` being `-exp(i·π·m/(2N))` over the centered odd-integer
sequence, each of magnitude 1, with no zeros and gain `k = 1`. -/
theorem C4_buttap (N : ℕ) (hN : 1 ≤ N) :
    (buttap_dyn N).p.length = N
      ∧ (buttap_dyn N).p = (centeredSeq N).map
          (fun m : ℤ => -Complex.exp ((Real.pi * (m : ℝ) / (2 * (N : ℝ)) : ℝ) * Complex.I))
      ∧ (∀ q ∈ (buttap_dyn N).p, Complex.abs q = 1)
      ∧ (buttap_dyn N).z = []
      ∧ (buttap_dyn N).k = 1 := by
  have hp : (buttap_dyn N).p = (centeredSeq N).map
      (fun m : ℤ => -Complex.exp ((Real.pi * (m : ℝ) / (2 * (N : ℝ)) : ℝ) * Complex.I)) := by
    simp only [buttap_dyn]
    exact List.map_congr_left fun m _ => by rw [mk_zero_eq_mul_I]
  refine ⟨?_, hp, ?_, rfl, rfl⟩
  · simp only [buttap_dyn, List.length_map, centeredSeq_length]
  · intro q hq
    rw [hp] at hq
    obtain ⟨m, _, rfl⟩ := List.mem_map.mp hq
    rw [AbsoluteValue.map_neg, Complex.abs_exp, Complex.mul_re, Complex.I_re, Complex.I_im,
      Complex.ofReal_re, Complex.ofReal_im]
    norm_num

/-- Witness for C4 at `N = 2`. -/
theorem C4_buttap_witness : (buttap_dyn 2).p.length = 2 :=
  (C4_buttap 2 (by norm_num)).1

/-! ### C3: Chebyshev I prototype -/

/-- C3: for `n ≥ 1`, `cheb1ap_dyn(n, rp)` has no zeros, poles
`-sinh(μ + i·θ_m)` with `μ = asinh(1/ε)/n`, `ε = sqrt(10^(rp/10) - 1)`,
`θ_m = π·m/(2n)` over the centered sequence, and gain equal to the real part of
the product of the negated poles, divided by `sqrt(1 + ε²)` exactly when `n`
is even; and `cheb1ap_dyn(0, rp)` is empty with `k = 10^(-rp/20)`. -/
theorem C3_cheb1ap (n : ℕ) (rp : ℝ) (hn : 1 ≤ n) :
    (cheb1ap_dyn n rp).z = []
      ∧ (cheb1ap_dyn n rp).p = (centeredSeq n).map (fun m : ℤ =>
          -Complex.sinh
            ((Real.arsinh (1 / Real.sqrt ((10 : ℝ) ^ (rp / 10) - 1)) / (n : ℝ) : ℝ)
              + (Real.pi * (m : ℝ) / (2 * (n : ℝ)) : ℝ) * Complex.I))
      ∧ (cheb1ap_dyn n rp).k =
          (if n % 2 = 0 then
            (((cheb1ap_dyn n rp).p.map (fun x => -x)).prod).re
              / Real.sqrt (1 + Real.sqrt ((10 : ℝ) ^ (rp / 10) - 1) ^ 2)
          else (((cheb1ap_dyn n rp).p.map (fun x => -x)).prod).re)
      ∧ (cheb1ap_dyn 0 rp).z = [] ∧ (cheb1ap_dyn 0 rp).p = []
      ∧ (cheb1ap_dyn 0 rp).k = (10 : ℝ) ^ (-rp / 20) := by
  have hn0 : ¬ n = 0 := by omega
  refine ⟨?_, ?_, ?_, ?_, ?_, ?_⟩
  · simp only [cheb1ap_dyn, if_neg hn0]
  · simp only [cheb1ap_dyn, if_neg hn0]
    refine List.map_congr_left fun m _ => ?_
    have harg : Real.pi * ((m : ℝ) / (2 * (n : ℝ))) = Real.pi * (m : ℝ) / (2 * (n : ℝ)) := by
      ring
    rw [Complex.mk_eq_add_mul_I, harg]
  · simp only [cheb1ap_dyn, if_neg hn0, List.map_map]
    rw [List.prod_eq_foldl, pow_two]
  · simp [cheb1ap_dyn]
  · simp [cheb1ap_dyn]
  · simp [cheb1ap_dyn]

/-! ### C2: Chebyshev II prototype -/

theorem cheb2Ms_odd (n : ℕ) (h : n % 2 = 1) :
    cheb2Ms n = stepBy2 (-(n : ℤ) + 1) 0 ++ stepBy2 2 n := if_pos h

theorem cheb2Ms_even (n : ℕ) (h : n % 2 = 0) : cheb2Ms n = centeredSeq n := by
  rw [cheb2Ms, if_neg (by omega)]

theorem stepBy2_left_length (n : ℕ) (h : n % 2 = 1) :
    (stepBy2 (-(n : ℤ) + 1) 0).length = (n - 1) / 2 := by
  rw [stepBy2_length]; omega

theorem stepBy2_right_length (n : ℕ) (h : n % 2 = 1) :
    (stepBy2 2 n).length = (n - 1) / 2 := by
  rw [stepBy2_length]; omega

theorem mem_stepBy2_left_neg {n : ℕ} {x : ℤ}
    (hx : x ∈ stepBy2 (-(n : ℤ) + 1) 0) : x < 0 := by
  obtain ⟨i, hi, rfl⟩ := mem_stepBy2 hx
  omega

theorem mem_stepBy2_right_pos {n : ℕ} {x : ℤ} (hx : x ∈ stepBy2 2 n) : 0 < x := by
  obtain ⟨i, hi, rfl⟩ := mem_stepBy2 hx
  omega

/-- For odd `n`, the centered sequence splits as the negative half, the
element `0`, and the positive half. -/
theorem centeredSeq_odd_decomp (n : ℕ) (hodd : n % 2 = 1) :
    centeredSeq n = stepBy2 (-(n : ℤ) + 1) 0 ++ 0 :: stepBy2 2 n := by
  have hA := stepBy2_left_length n hodd
  have hB := stepBy2_right_length n hodd
  apply List.ext_getElem
  · rw [centeredSeq_length, List.length_append, List.length_cons, hA, hB]
    omega
  intro i h₁ h₂
  rw [centeredSeq_getElem, List.getElem_append]
  split
  · rw [stepBy2_getElem]
  · rename_i hi
    rw [List.getElem_cons]
    split
    · rename_i h0
      rw [hA] at hi h0
      omega
    · rename_i h0
      rw [stepBy2_getElem, hA] at *
      rw [hA] at hi h0 ⊢
      omega

/-- The claim-side index sequence for the Chebyshev II zeros: the centered
sequence with `m = 0` omitted when `n` is odd. -/
def cheb2MsSpec (n : ℕ) : List ℤ :=
  if n % 2 = 1 then (centeredSeq n).filter (fun m => m ≠ 0) else centeredSeq n

theorem cheb2MsSpec_eq (n : ℕ) : cheb2MsSpec n = cheb2Ms n := by
  by_cases h : n % 2 = 1
  · rw [cheb2MsSpec, if_pos h, cheb2Ms, if_pos h, centeredSeq_odd_decomp n h,
      List.filter_append, List.filter_cons]
    rw [if_neg (by simp)]
    congr 1
    · exact List.filter_eq_self.mpr fun a ha => by
        simpa using (mem_stepBy2_left_neg ha).ne
    · exact List.filter_eq_self.mpr fun a ha => by
        simpa using (mem_stepBy2_right_pos ha).ne'
  · rw [cheb2MsSpec, if_neg h, cheb2Ms, if_neg h]

theorem cheb2Ms_length (n : ℕ) :
    (cheb2Ms n).length = if n % 2 = 0 then n else n - 1 := by
  by_cases h : n % 2 = 1
  · rw [cheb2Ms, if_pos h, List.length_append, stepBy2_left_length n h,
      stepBy2_right_length n h, if_neg (by omega)]
    omega
  · rw [cheb2Ms, if_neg h, centeredSeq_length, if_pos (by omega)]

/-- Negating the Chebyshev II index list reverses it. -/
theorem cheb2Ms_map_neg (n : ℕ) :
    (cheb2Ms n).map (fun m => -m) = (cheb2Ms n).reverse := by
  by_cases h : n % 2 = 1
  · have hA := stepBy2_left_length n h
    have hB := stepBy2_right_length n h
    have e1 : (stepBy2 (-(n : ℤ) + 1) 0).map (fun m => -m) = (stepBy2 2 n).reverse := by
      apply List.ext_getElem
      · rw [List.length_map, List.length_reverse, hA, hB]
      intro i h₁ h₂
      rw [List.length_map, hA] at h₁
      simp only [List.getElem_map, List.getElem_reverse]
      rw [stepBy2_getElem, stepBy2_getElem, hB]
      omega
    have e2 : (stepBy2 2 n).map (fun m => -m) = (stepBy2 (-(n : ℤ) + 1) 0).reverse := by
      apply List.ext_getElem
      · rw [List.length_map, List.length_reverse, hA, hB]
      intro i h₁ h₂
      rw [List.length_map, hB] at h₁
      simp only [List.getElem_map, List.getElem_reverse]
      rw [stepBy2_getElem, stepBy2_getElem, hA]
      omega
    rw [cheb2Ms, if_pos h, List.map_append, e1, e2, List.reverse_append]
  · rw [cheb2Ms, if_neg h]
    exact centeredSeq_map_neg n

/-- The claim-side zero formula of `cheb2ap`: `-i / sin(π·m/(2n))`. -/
noncomputable def cheb2ZeroSpec (n : ℕ) (m : ℤ) : ℂ :=
  -Complex.I / ((Real.sin (Real.pi * (m : ℝ) / (2 * (n : ℝ))) : ℝ) : ℂ)

/-- The claim-side pole formula of `cheb2ap`: the complex reciprocal
`1/(sinh(μ)·Re + i·cosh(μ)·Im)` of the point `-exp(i·θ_m)`, where
`μ = asinh(1/de)/n` and `de = 1/sqrt(10^(rs/10) - 1)`. -/
noncomputable def cheb2PoleSpec (n : ℕ) (rs : ℝ) (m : ℤ) : ℂ :=
  let de := 1 / Real.sqrt ((10 : ℝ) ^ (rs / 10) - 1)
  let mu := Real.arsinh (1 / de) / (n : ℝ)
  let w := -Complex.exp ((Real.pi * (m : ℝ) / (2 * (n : ℝ)) : ℝ) * Complex.I)
  1 / (((Real.sinh mu * w.re : ℝ) : ℂ) + ((Real.cosh mu * w.im : ℝ) : ℂ) * Complex.I)

/-- The code maps each index `m` to `-conj(i / sin(m·π/(2n)))`, which equals
`+i / sin(m·π/(2n))`. -/
theorem cheb2_zero_code_eq (n : ℕ) (m : ℤ) :
    -((starRingEnd ℂ) (Complex.I / ((Real.sin ((m : ℝ) * (Real.pi / (2 * (n : ℝ))))) : ℂ)))
      = Complex.I / ((Real.sin ((m : ℝ) * (Real.pi / (2 * (n : ℝ))))) : ℂ) := by
  rw [map_div₀, Complex.conj_I, Complex.conj_ofReal, neg_div, neg_neg]

/-- The claim-side zero at `-m` is the code-side zero at `m`. -/
theorem cheb2ZeroSpec_neg (n : ℕ) (m : ℤ) :
    cheb2ZeroSpec n (-m)
      = Complex.I / ((Real.sin ((m : ℝ) * (Real.pi / (2 * (n : ℝ))))) : ℂ) := by
  rw [cheb2ZeroSpec]
  have h1 : Real.pi * ((-m : ℤ) : ℝ) / (2 * (n : ℝ))
      = -((m : ℝ) * (Real.pi / (2 * (n : ℝ)))) := by
    push_cast
    ring
  rw [h1, Real.sin_neg, Complex.ofReal_neg, neg_div_neg_eq]

/-- C2: for `n ≥ 1`, `cheb2ap_dyn(n, rs)` returns, as an unordered multiset,
the zeros `-i/sin(π·m/(2n))` over the centered sequence with `m = 0` omitted
for odd `n` (hence `n` zeros for even `n`, `n - 1` for odd `n`), the poles
`1/(sinh(μ)·Re + i·cosh(μ)·Im)` of the points `-exp(i·θ_m)`, and gain
`k = Re(Π(-p) / Π(-z))`; and `cheb2ap_dyn(0, rs)` is empty with `k = 1`. -/
theorem C2_cheb2ap (n : ℕ) (rs : ℝ) (hn : 1 ≤ n) :
    (((cheb2ap_dyn n rs).z : List ℂ) : Multiset ℂ)
          = (((cheb2MsSpec n).map (cheb2ZeroSpec n) : List ℂ) : Multiset ℂ)
      ∧ (cheb2ap_dyn n rs).z.length = (if n % 2 = 0 then n else n - 1)
      ∧ (cheb2ap_dyn n rs).p = (centeredSeq n).map (cheb2PoleSpec n rs)
      ∧ (cheb2ap_dyn n rs).k =
          ((((cheb2ap_dyn n rs).p.map fun x => -x).prod)
            / (((cheb2ap_dyn n rs).z.map fun x => -x).prod)).re
      ∧ (cheb2ap_dyn 0 rs).z = [] ∧ (cheb2ap_dyn 0 rs).p = []
      ∧ (cheb2ap_dyn 0 rs).k = 1 := by
  have hn0 : ¬ n = 0 := by omega
  have hmu : ((1 / 10 : ℝ) * rs) = rs / 10 := by ring
  have hz : (cheb2ap_dyn n rs).z = (cheb2Ms n).map (fun m : ℤ =>
      Complex.I / ((Real.sin ((m : ℝ) * (Real.pi / (2 * (n : ℝ))))) : ℂ)) := by
    simp only [cheb2ap_dyn, if_neg hn0]
    exact List.map_congr_left fun m _ => cheb2_zero_code_eq n m
  refine ⟨?_, ?_, ?_, ?_, ?_, ?_, ?_⟩
  · rw [hz, cheb2MsSpec_eq, Multiset.coe_eq_coe]
    have e : (cheb2Ms n).map (fun m : ℤ =>
        Complex.I / ((Real.sin ((m : ℝ) * (Real.pi / (2 * (n : ℝ))))) : ℂ))
          = ((cheb2Ms n).reverse).map (cheb2ZeroSpec n) := by
      rw [← cheb2Ms_map_neg, List.map_map]
      exact List.map_congr_left fun m _ => (cheb2ZeroSpec_neg n m).symm
    rw [e]
    exact ((cheb2Ms n).reverse_perm).map _
  · rw [hz, List.length_map, cheb2Ms_length]
  · simp only [cheb2ap_dyn, if_neg hn0, hmu]
    refine List.map_congr_left fun m _ => ?_
    rw [cheb2PoleSpec]
    rw [mk_zero_eq_mul_I, Complex.mk_eq_add_mul_I]
  · simp only [cheb2ap_dyn, if_neg hn0, List.map_map]
    rw [List.prod_eq_foldl, List.prod_eq_foldl]
  · simp [cheb2ap_dyn]
  · simp [cheb2ap_dyn]
  · simp [cheb2ap_dyn]

/-- Witness for C2 at `n = 2`, `rs = 1`. -/
theorem C2_cheb2ap_witness :
    (cheb2ap_dyn 2 1).z.length = (if 2 % 2 = 0 then 2 else 2 - 1) :=
  (C2_cheb2ap 2 1 (by norm_num)).2.1

/-- Witness for C3 at `n = 2`, `rp = 1`. -/
theorem C3_cheb1ap_witness : (cheb1ap_dyn 2 1).z = [] :=
  (C3_cheb1ap 2 1 (by norm_num)).1

/-- C10: `buttap_dyn(0)` returns a ZPK filter with empty zero list, empty pole
list, and gain `k = 1`. -/
theorem C10_buttap_zero :
    (buttap_dyn 0).z = [] ∧ (buttap_dyn 0).p = [] ∧ (buttap_dyn 0).k = 1 := by
  refine ⟨rfl, ?_, rfl⟩
  simp only [buttap_dyn, centeredSeq_zero, List.map_nil]

/-! ### C5: conjugate-pair symmetry of the pole sets -/

theorem neg_sinh_mk_im (a b : ℝ) :
    (-Complex.sinh ⟨a, b⟩).im = -(Real.cosh a * Real.sin b) := by
  rw [sinh_mk]
  rfl

/-- The pole map of `buttap_dyn`. -/
noncomputable def buttapPoleFun (n : ℕ) (m : ℤ) : ℂ :=
  -Complex.exp ⟨0, Real.pi * (m : ℝ) / (2 * (n : ℝ))⟩

/-- The `μ` value computed by `cheb1ap_dyn`. -/
noncomputable def cheb1Mu (n : ℕ) (rp : ℝ) : ℝ :=
  Real.arsinh (1 / Real.sqrt ((10 : ℝ) ^ (rp / 10) - 1)) / (n : ℝ)

/-- The pole map of `cheb1ap_dyn`. -/
noncomputable def cheb1PoleFun (n : ℕ) (rp : ℝ) (m : ℤ) : ℂ :=
  -Complex.sinh ⟨cheb1Mu n rp, Real.pi * ((m : ℝ) / (2 * (n : ℝ)))⟩

/-- The `μ` value computed by `cheb2ap_dyn`. -/
noncomputable def cheb2Mu (n : ℕ) (rs : ℝ) : ℝ :=
  Real.arsinh (1 / (1 / Real.sqrt ((10 : ℝ) ^ ((1 / 10 : ℝ) * rs) - 1))) / (n : ℝ)

/-- The pole map of `cheb2ap_dyn`. -/
noncomputable def cheb2PoleFun (n : ℕ) (rs : ℝ) (m : ℤ) : ℂ :=
  (1 : ℂ) / ⟨Real.sinh (cheb2Mu n rs) * (-Complex.exp ⟨0, Real.pi * (m : ℝ) / (2 * (n : ℝ))⟩).re,
    Real.cosh (cheb2Mu n rs) * (-Complex.exp ⟨0, Real.pi * (m : ℝ) / (2 * (n : ℝ))⟩).im⟩

theorem buttap_p_eq (n : ℕ) :
    (buttap_dyn n).p = (centeredSeq n).map (buttapPoleFun n) := rfl

theorem cheb1ap_p_eq (n : ℕ) (rp : ℝ) :
    (cheb1ap_dyn n rp).p = (centeredSeq n).map (cheb1PoleFun n rp) := by
  by_cases h0 : n = 0
  · subst h0
    simp [cheb1ap_dyn, centeredSeq_zero]
  · simp only [cheb1ap_dyn, if_neg h0]
    rfl

theorem cheb2ap_p_eq (n : ℕ) (rs : ℝ) :
    (cheb2ap_dyn n rs).p = (centeredSeq n).map (cheb2PoleFun n rs) := by
  by_cases h0 : n = 0
  · subst h0
    simp [cheb2ap_dyn, centeredSeq_zero]
  · simp only [cheb2ap_dyn, if_neg h0]
    rfl

/-- Generic conjugation-reversal: if the pole map intertwines conjugation
with index negation, conjugating the mapped pole list reverses it. -/
theorem map_conj_reverse_of (n : ℕ) (f : ℤ → ℂ)
    (hf : ∀ m : ℤ, (starRingEnd ℂ) (f m) = f (-m)) :
    ((centeredSeq n).map f).map (starRingEnd ℂ) = ((centeredSeq n).map f).reverse := by
  rw [List.map_map]
  have hcomp : (starRingEnd ℂ) ∘ f = f ∘ (fun m : ℤ => -m) := funext fun m => hf m
  rw [hcomp, ← List.map_map, centeredSeq_map_neg, List.map_reverse]

/-- Generic conjugate-closure: if the pole map intertwines conjugation with
index negation, the mapped pole list is closed under conjugation. -/
theorem conj_mem_of_map (n : ℕ) (f : ℤ → ℂ)
    (hf : ∀ m : ℤ, (starRingEnd ℂ) (f m) = f (-m)) :
    ∀ q ∈ (centeredSeq n).map f, (starRingEnd ℂ) q ∈ (centeredSeq n).map f := by
  intro q hq
  obtain ⟨m, hm, rfl⟩ := List.mem_map.mp hq
  rw [hf]
  refine List.mem_map.mpr ⟨-m, ?_, rfl⟩
  have hmem : -m ∈ (centeredSeq n).map (fun m => -m) := List.mem_map.mpr ⟨m, hm, rfl⟩
  rw [centeredSeq_map_neg] at hmem
  exact List.mem_reverse.mp hmem

/-- Generic real-pole analysis: if a pole's imaginary part vanishes exactly at
index `m = 0`, then at most one entry of the mapped pole list is real, and one
exists only when `n` is odd. -/
theorem real_im_unique_of_map (n : ℕ) (f : ℤ → ℂ)
    (hf : ∀ m ∈ centeredSeq n, ((f m).im = 0 ↔ m = 0)) :
    (∀ i j (hi : i < ((centeredSeq n).map f).length)
        (hj : j < ((centeredSeq n).map f).length),
        (((centeredSeq n).map f)[i]).im = 0 → (((centeredSeq n).map f)[j]).im = 0 → i = j)
    ∧ ((∃ i, ∃ hi : i < ((centeredSeq n).map f).length,
        (((centeredSeq n).map f)[i]).im = 0) → n % 2 = 1) := by
  have key : ∀ i (hi : i < ((centeredSeq n).map f).length),
      (((centeredSeq n).map f)[i]).im = 0 → -(n : ℤ) + 1 + 2 * i = 0 := by
    intro i hi h
    rw [List.getElem_map] at h
    have hib : i < (centeredSeq n).length := by
      rw [List.length_map] at hi
      exact hi
    have hmem : (centeredSeq n)[i] ∈ centeredSeq n := List.getElem_mem hib
    have h0 := (hf _ hmem).mp h
    rw [centeredSeq_getElem] at h0
    exact h0
  constructor
  · intro i j hi hj h1 h2
    have k1 := key i hi h1
    have k2 := key j hj h2
    omega
  · rintro ⟨i, hi, h⟩
    have k := key i hi h
    omega

theorem buttapPoleFun_conj (n : ℕ) (m : ℤ) :
    (starRingEnd ℂ) (buttapPoleFun n m) = buttapPoleFun n (-m) := by
  rw [buttapPoleFun, buttapPoleFun, conj_neg_exp_mk]
  have harg : -(Real.pi * (m : ℝ) / (2 * (n : ℝ)))
      = Real.pi * ((-m : ℤ) : ℝ) / (2 * (n : ℝ)) := by
    push_cast
    ring
  rw [harg]

theorem cheb1PoleFun_conj (n : ℕ) (rp : ℝ) (m : ℤ) :
    (starRingEnd ℂ) (cheb1PoleFun n rp m) = cheb1PoleFun n rp (-m) := by
  rw [cheb1PoleFun, cheb1PoleFun, map_neg, ← Complex.sinh_conj, conj_mk]
  have harg : -(Real.pi * ((m : ℝ) / (2 * (n : ℝ))))
      = Real.pi * (((-m : ℤ) : ℝ) / (2 * (n : ℝ))) := by
    push_cast
    ring
  rw [harg]

theorem cheb2PoleFun_conj (n : ℕ) (rs : ℝ) (m : ℤ) :
    (starRingEnd ℂ) (cheb2PoleFun n rs m) = cheb2PoleFun n rs (-m) := by
  have harg : Real.pi * ((-m : ℤ) : ℝ) / (2 * (n : ℝ))
      = -(Real.pi * (m : ℝ) / (2 * (n : ℝ))) := by
    push_cast
    ring
  rw [cheb2PoleFun, cheb2PoleFun, map_div₀, map_one, neg_exp_mk_re, neg_exp_mk_re,
    neg_exp_mk_im, neg_exp_mk_im, conj_mk, harg, Real.cos_neg, Real.sin_neg]
  congr 1
  simp only [Complex.mk.injEq]
  constructor <;> ring

/-- Inside the centered sequence, `sin(π·m/(2n)) = 0` holds exactly at `m = 0`. -/
theorem sin_theta_eq_zero_iff {n : ℕ} {m : ℤ} (hm : m ∈ centeredSeq n) :
    Real.sin (Real.pi * (m : ℝ) / (2 * (n : ℝ))) = 0 ↔ m = 0 := by
  obtain ⟨hlo, hhi, -⟩ := mem_centeredSeq hm
  have hn : 1 ≤ n := by omega
  have hnR : (1 : ℝ) ≤ (n : ℝ) := by exact_mod_cast hn
  have hmR1 : (m : ℝ) ≤ (n : ℝ) - 1 := by exact_mod_cast hhi
  have hmR2 : -(n : ℝ) + 1 ≤ (m : ℝ) := by exact_mod_cast hlo
  have h2n : (0 : ℝ) < 2 * (n : ℝ) := by linarith
  have hπ := Real.pi_pos
  have hb1 : -Real.pi < Real.pi * (m : ℝ) / (2 * (n : ℝ)) := by
    rw [lt_div_iff h2n]
    nlinarith [mul_pos hπ (show (0 : ℝ) < (m : ℝ) + 2 * (n : ℝ) by linarith)]
  have hb2 : Real.pi * (m : ℝ) / (2 * (n : ℝ)) < Real.pi := by
    rw [div_lt_iff h2n]
    nlinarith [mul_pos hπ (show (0 : ℝ) < 2 * (n : ℝ) - (m : ℝ) by linarith)]
  rw [Real.sin_eq_zero_iff_of_lt_of_lt hb1 hb2, div_eq_zero_iff]
  constructor
  · rintro (h | h)
    · rcases mul_eq_zero.mp h with h' | h'
      · exact absurd h' Real.pi_ne_zero
      · exact_mod_cast h'
    · linarith
  · rintro rfl
    simp

/-- Inside the centered sequence, `cos(π·m/(2n))` is positive. -/
theorem cos_theta_pos {n : ℕ} {m : ℤ} (hm : m ∈ centeredSeq n) :
    0 < Real.cos (Real.pi * (m : ℝ) / (2 * (n : ℝ))) := by
  obtain ⟨hlo, hhi, -⟩ := mem_centeredSeq hm
  have hn : 1 ≤ n := by omega
  have hnR : (1 : ℝ) ≤ (n : ℝ) := by exact_mod_cast hn
  have hmR1 : (m : ℝ) ≤ (n : ℝ) - 1 := by exact_mod_cast hhi
  have hmR2 : -(n : ℝ) + 1 ≤ (m : ℝ) := by exact_mod_cast hlo
  have h2n : (0 : ℝ) < 2 * (n : ℝ) := by linarith
  have hπ := Real.pi_pos
  apply Real.cos_pos_of_mem_Ioo
  refine Set.mem_Ioo.mpr ⟨?_, ?_⟩
  · rw [neg_lt, ← neg_div, div_lt_iff h2n]
    nlinarith [mul_pos hπ (show (0 : ℝ) < (m : ℝ) + (n : ℝ) by linarith)]
  · rw [div_lt_iff h2n]
    nlinarith [mul_pos hπ (show (0 : ℝ) < (n : ℝ) - (m : ℝ) by linarith)]

theorem buttapPoleFun_im_zero_iff {n : ℕ} {m : ℤ} (hm : m ∈ centeredSeq n) :
    (buttapPoleFun n m).im = 0 ↔ m = 0 := by
  rw [buttapPoleFun, neg_exp_mk_im, neg_eq_zero]
  exact sin_theta_eq_zero_iff hm

theorem cheb1PoleFun_im_zero_iff {n : ℕ} (rp : ℝ) {m : ℤ} (hm : m ∈ centeredSeq n) :
    (cheb1PoleFun n rp m).im = 0 ↔ m = 0 := by
  have harg : Real.pi * ((m : ℝ) / (2 * (n : ℝ))) = Real.pi * (m : ℝ) / (2 * (n : ℝ)) := by
    ring
  rw [cheb1PoleFun, neg_sinh_mk_im, harg, neg_eq_zero, mul_eq_zero]
  constructor
  · rintro (h | h)
    · exact absurd h (Real.cosh_pos _).ne'
    · exact (sin_theta_eq_zero_iff hm).mp h
  · intro h
    exact Or.inr ((sin_theta_eq_zero_iff hm).mpr h)

theorem cheb2Mu_pos {n : ℕ} (hn : 1 ≤ n) {rs : ℝ} (hrs : 0 < rs) : 0 < cheb2Mu n rs := by
  rw [cheb2Mu, one_div_one_div]
  apply div_pos
  · rw [Real.arsinh_pos_iff]
    apply Real.sqrt_pos.mpr
    have h1 : (1 : ℝ) < (10 : ℝ) ^ ((1 / 10 : ℝ) * rs) := by
      rw [Real.one_lt_rpow_iff_of_pos (by norm_num)]
      exact Or.inl ⟨by norm_num, by linarith⟩
    linarith
  · have : (1 : ℝ) ≤ (n : ℝ) := by exact_mod_cast hn
    linarith

theorem cheb2PoleFun_im_zero_iff {n : ℕ} {rs : ℝ} (hrs : 0 < rs) {m : ℤ}
    (hm : m ∈ centeredSeq n) :
    (cheb2PoleFun n rs m).im = 0 ↔ m = 0 := by
  have hn : 1 ≤ n := by
    obtain ⟨h1, h2, -⟩ := mem_centeredSeq hm
    omega
  have hmu := cheb2Mu_pos hn hrs
  have hsinh : 0 < Real.sinh (cheb2Mu n rs) := Real.sinh_pos_iff.mpr hmu
  have hcos := cos_theta_pos hm
  have hd : (⟨Real.sinh (cheb2Mu n rs) * -Real.cos (Real.pi * (m : ℝ) / (2 * (n : ℝ))),
      Real.cosh (cheb2Mu n rs) * -Real.sin (Real.pi * (m : ℝ) / (2 * (n : ℝ)))⟩ : ℂ) ≠ 0 := by
    intro hc
    have hre := congrArg Complex.re hc
    simp only [Complex.zero_re] at hre
    nlinarith [mul_pos hsinh hcos]
  rw [cheb2PoleFun, neg_exp_mk_re, neg_exp_mk_im, one_div, Complex.inv_im]
  rw [show (⟨Real.sinh (cheb2Mu n rs) * -Real.cos (Real.pi * (m : ℝ) / (2 * (n : ℝ))),
      Real.cosh (cheb2Mu n rs) * -Real.sin (Real.pi * (m : ℝ) / (2 * (n : ℝ)))⟩ : ℂ).im
      = Real.cosh (cheb2Mu n rs) * -Real.sin (Real.pi * (m : ℝ) / (2 * (n : ℝ))) from rfl]
  have hns : 0 < Complex.normSq
      (⟨Real.sinh (cheb2Mu n rs) * -Real.cos (Real.pi * (m : ℝ) / (2 * (n : ℝ))),
        Real.cosh (cheb2Mu n rs) * -Real.sin (Real.pi * (m : ℝ) / (2 * (n : ℝ)))⟩ : ℂ) :=
    Complex.normSq_pos.mpr hd
  rw [div_eq_zero_iff]
  constructor
  · rintro (h | h)
    · rw [neg_eq_zero, mul_eq_zero] at h
      rcases h with h' | h'
      · exact absurd h' (Real.cosh_pos _).ne'
      · rw [neg_eq_zero] at h'
        exact (sin_theta_eq_zero_iff hm).mp h'
    · exact absurd h hns.ne'
  · intro h
    refine Or.inl ?_
    rw [neg_eq_zero, mul_eq_zero]
    exact Or.inr (neg_eq_zero.mpr ((sin_theta_eq_zero_iff hm).mpr h))

/-- C5: for every order and valid `rp`/`rs`, the pole lists of `buttap_dyn`,
`cheb1ap_dyn` and `cheb2ap_dyn` are closed under complex conjugation, at most
one entry of each is real, and a real entry occurs only when the order is
odd. -/
theorem C5_conjugate_pairs (n : ℕ) (rp rs : ℝ) (hrp : 0 < rp) (hrs : 0 < rs) :
    ((buttap_dyn n).p.map (starRingEnd ℂ) = (buttap_dyn n).p.reverse)
  ∧ ((cheb1ap_dyn n rp).p.map (starRingEnd ℂ) = (cheb1ap_dyn n rp).p.reverse)
  ∧ ((cheb2ap_dyn n rs).p.map (starRingEnd ℂ) = (cheb2ap_dyn n rs).p.reverse)
  ∧ (∀ q ∈ (buttap_dyn n).p, (starRingEnd ℂ) q ∈ (buttap_dyn n).p)
  ∧ (∀ q ∈ (cheb1ap_dyn n rp).p, (starRingEnd ℂ) q ∈ (cheb1ap_dyn n rp).p)
  ∧ (∀ q ∈ (cheb2ap_dyn n rs).p, (starRingEnd ℂ) q ∈ (cheb2ap_dyn n rs).p)
  ∧ (∀ i j (hi : i < (buttap_dyn n).p.length) (hj : j < (buttap_dyn n).p.length),
      ((buttap_dyn n).p[i]).im = 0 → ((buttap_dyn n).p[j]).im = 0 → i = j)
  ∧ ((∃ i, ∃ hi : i < (buttap_dyn n).p.length, ((buttap_dyn n).p[i]).im = 0) → n % 2 = 1)
  ∧ (∀ i j (hi : i < (cheb1ap_dyn n rp).p.length) (hj : j < (cheb1ap_dyn n rp).p.length),
      ((cheb1ap_dyn n rp).p[i]).im = 0 → ((cheb1ap_dyn n rp).p[j]).im = 0 → i = j)
  ∧ ((∃ i, ∃ hi : i < (cheb1ap_dyn n rp).p.length,
      ((cheb1ap_dyn n rp).p[i]).im = 0) → n % 2 = 1)
  ∧ (∀ i j (hi : i < (cheb2ap_dyn n rs).p.length) (hj : j < (cheb2ap_dyn n rs).p.length),
      ((cheb2ap_dyn n rs).p[i]).im = 0 → ((cheb2ap_dyn n rs).p[j]).im = 0 → i = j)
  ∧ ((∃ i, ∃ hi : i < (cheb2ap_dyn n rs).p.length,
      ((cheb2ap_dyn n rs).p[i]).im = 0) → n % 2 = 1) := by
  rw [buttap_p_eq, cheb1ap_p_eq, cheb2ap_p_eq]
  have hbutt := real_im_unique_of_map n (buttapPoleFun n)
    fun m hm => buttapPoleFun_im_zero_iff hm
  have hch1 := real_im_unique_of_map n (cheb1PoleFun n rp)
    fun m hm => cheb1PoleFun_im_zero_iff rp hm
  have hch2 := real_im_unique_of_map n (cheb2PoleFun n rs)
    fun m hm => cheb2PoleFun_im_zero_iff hrs hm
  exact ⟨map_conj_reverse_of n _ (buttapPoleFun_conj n),
    map_conj_reverse_of n _ (cheb1PoleFun_conj n rp),
    map_conj_reverse_of n _ (cheb2PoleFun_conj n rs),
    conj_mem_of_map n _ (buttapPoleFun_conj n),
    conj_mem_of_map n _ (cheb1PoleFun_conj n rp),
    conj_mem_of_map n _ (cheb2PoleFun_conj n rs),
    hbutt.1, hbutt.2, hch1.1, hch1.2, hch2.1, hch2.2⟩

/-- Witness for C5 at `n = 3`, `rp = rs = 1`. -/
theorem C5_conjugate_pairs_witness :
    (buttap_dyn 3).p.map (starRingEnd ℂ) = (buttap_dyn 3).p.reverse :=
  (C5_conjugate_pairs 3 1 1 (by norm_num) (by norm_num)).1

/-! ### Orchestrator stages of `iirfilter_dyn` -/

/-- `FilterBandType` of `design/mod.rs`. -/
inductive FilterBandType where
  | Lowpass
  | Highpass
  | Bandpass
  | Bandstop
deriving DecidableEq

/-- `FilterType` of `design/mod.rs` (the `BesselThomson` norm payload never
influences the modelled excerpt: that arm is `todo!()`). -/
inductive FilterType where
  | Butterworth
  | ChebyshevI
  | ChebyshevII
  | CauerElliptic
  | BesselThomson
deriving DecidableEq

open Classical in
/-- Checks on the (possibly fs-normalized) critical frequencies
(iirfilter.rs lines 78-84): positivity, then strict ordering of a pair. -/
noncomputable def validateWnChecks (wn : List ℝ) : Except String (List ℝ) :=
  if ∃ wi ∈ wn, wi ≤ 0 then
    Except.error "filter critical frequencies must be greater than 0"
  else if wn.length > 1 ∧ wn.getD 0 0 ≥ wn.getD 1 0 then
    Except.error "Wn[0] must be less than Wn[1]"
  else Except.ok wn

/-- The in-place normalization `wn_i ← 2·wn_i/fs` applied when `fs` is
given (lines 68-76). -/
noncomputable def normWn (wn : List ℝ) (fs : Option ℝ) : List ℝ :=
  match fs with
  | some fsv => wn.map fun wni => 2 * wni / fsv
  | none => wn

open Classical in
/-- Argument validation of `iirfilter_dyn` (lines 64-84): length bound,
`fs`/`analog` conflict, in-place normalization `wn_i ← 2·wn_i/fs`, then
`validateWnChecks` on the result. -/
noncomputable def validateWn (wn : List ℝ) (analog : Bool) (fs : Option ℝ) :
    Except String (List ℝ) :=
  if wn.length > 2 then Except.error "Wn may be of len 1 or 2"
  else if fs.isSome && analog then
    Except.error "fs cannot be specified for an analog filter"
  else validateWnChecks (normWn wn fs)

open Classical in
/-- The `rp` sign check of `iirfilter_dyn` (lines 86-90). -/
noncomputable def rpCheck (rp : Option ℝ) : Except String Unit :=
  match rp with
  | some v =>
      if v < 0 then Except.error "passband ripple (rp) must be positive" else Except.ok ()
  | none => Except.ok ()

open Classical in
/-- The `rs` sign check of `iirfilter_dyn` (lines 92-96). -/
noncomputable def rsCheck (rs : Option ℝ) : Except String Unit :=
  match rs with
  | some v =>
      if v < 0 then Except.error "stopband attenuation (rs) must be positive" else Except.ok ()
  | none => Except.ok ()

/-- The `rp` check followed by the `rs` check, in the code order. -/
noncomputable def rippleCheck (rp rs : Option ℝ) : Except String Unit :=
  match rpCheck rp with
  | Except.error e => Except.error e
  | Except.ok _ => rsCheck rs

/-- Prototype selection of `iirfilter_dyn` (lines 99-127). The `ChebyshevII`
arm mirrors the code exactly: it tests `rp.is_none()` (not `rs`) before
calling `cheb2ap_dyn(order, rs.unwrap())`; the `unwrap` panic on `rs = None`
and the `todo!()` panics are modelled as errors. -/
noncomputable def protoStage (order : ℕ) (rp rs : Option ℝ)
    (ftype : Option FilterType) : Except String ZpkFormatFilter :=
  match ftype.getD FilterType.Butterworth with
  | FilterType.Butterworth => Except.ok (buttap_dyn order)
  | FilterType.ChebyshevI =>
      match rp with
      | none =>
          Except.error "passband ripple (rp) must be provided to design a Chebyshev I filter"
      | some rpv => Except.ok (cheb1ap_dyn order rpv)
  | FilterType.ChebyshevII =>
      match rp with
      | none =>
          Except.error
            "stopband attenuation (rs) must be provided to design an Chebyshev II filter."
      | some _ =>
          match rs with
          | none => Except.error "called Option::unwrap on a None value"
          | some rsv => Except.ok (cheb2ap_dyn order rsv)
  | FilterType.CauerElliptic =>
      if rs.isNone || rp.isNone then
        Except.error "Both rp and rs must be provided to design an elliptic filter."
      else Except.error "not yet implemented"
  | FilterType.BesselThomson => Except.error "not yet implemented"

/-- The panic message of the digital frequency-bound check, which depends on
whether `fs` was supplied (lines 132-139). -/
def digitalWnErrMsg (fs : Option ℝ) : String :=
  match fs with
  | some _ => "Digital filter critical frequencies must be 0 < Wn < fs/2"
  | none => "Digital filter critical frequencies must be 0 < Wn < 1"

open Classical in
/-- Pre-warping of `iirfilter_dyn` (lines 130-149): digital designs require
`0 < wn_i < 1`, use reference rate 2 and warp through the tangent; analog
designs pass `wn` through with `fs` defaulting to 1. -/
noncomputable def warpStage (wn : List ℝ) (analog : Bool) (fs : Option ℝ) :
    Except String (ℝ × List ℝ) :=
  if analog = false then
    if ∃ wi ∈ wn, wi ≤ 0 ∨ 1 ≤ wi then
      Except.error (digitalWnErrMsg fs)
    else
      Except.ok (2, wn.map fun wni => 2 * 2 * Real.tan (Real.pi * wni / 2))
  else
    Except.ok (fs.getD 1, wn)

/-- A record of which band transform `iirfilter_dyn` invokes and with which
arguments (the transforms live outside the modelled excerpt). -/
inductive BandTransformCall where
  | lp2lp (zpk : ZpkFormatFilter) (wo : ℝ)
  | lp2hp (zpk : ZpkFormatFilter) (wo : ℝ)
  | lp2bp (zpk : ZpkFormatFilter) (wo : ℝ) (bw : ℝ)
  | lp2bs (zpk : ZpkFormatFilter) (wo : ℝ) (bw : ℝ)

/-- Band-transform dispatch of `iirfilter_dyn` (lines 152-193). -/
noncomputable def bandStage (zpk : ZpkFormatFilter) (btype : Option FilterBandType)
    (wn warped : List ℝ) : Except String BandTransformCall :=
  match btype.getD FilterBandType.Bandpass with
  | FilterBandType.Lowpass =>
      if wn.length ≠ 1 then
        Except.error "Must specify a single critical frequency Wn for lowpass or highpass filter"
      else Except.ok (BandTransformCall.lp2lp zpk (warped.getD 0 0))
  | FilterBandType.Highpass =>
      if wn.length ≠ 1 then
        Except.error "Must specify a single critical frequency Wn for lowpass or highpass filter"
      else Except.ok (BandTransformCall.lp2hp zpk (warped.getD 0 0))
  | FilterBandType.Bandpass =>
      if wn.length ≠ 2 then
        Except.error "Wn must specify start and stop frequencies for bandpass or bandstop filter"
      else
        Except.ok (BandTransformCall.lp2bp zpk
          (Real.sqrt (warped.getD 0 0 * warped.getD 1 0)) (warped.getD 1 0 - warped.getD 0 0))
  | FilterBandType.Bandstop =>
      if wn.length ≠ 2 then
        Except.error "Wn must specify start and stop frequencies for bandpass or bandstop filter"
      else
        Except.ok (BandTransformCall.lp2bs zpk
          (Real.sqrt (warped.getD 0 0 * warped.getD 1 0)) (warped.getD 1 0 - warped.getD 0 0))

/-- The staged pipeline of `iirfilter_dyn` up to the band-transform call,
in the code order: validation, ripple checks, prototype, pre-warp, band
dispatch. -/
noncomputable def iirfilter_stages (order : ℕ) (wn : List ℝ) (rp rs : Option ℝ)
    (btype : Option FilterBandType) (ftype : Option FilterType)
    (analog : Option Bool) (fs : Option ℝ) :
    Except String (ℝ × List ℝ × BandTransformCall) := do
  let analogb := analog.getD false
  let wn2 ← validateWn wn analogb fs
  let _ ← rippleCheck rp rs
  let zpk ← protoStage order rp rs ftype
  let fw ← warpStage wn2 analogb fs
  let call ← bandStage zpk btype wn2 fw.2
  return (fw.1, fw.2, call)

/-! ### C1: ChebyshevII parameter requirement -/

/-- C1 (code bug): the ChebyshevII arm of `iirfilter_dyn` is fatal when `rs`
is provided but `rp` is absent (the code tests `rp.is_none()` while its own
panic message speaks of `rs`), is fatal through `rs.unwrap()` when `rp` is
provided but `rs` absent, and reaches `cheb2ap_dyn(order, rs)` only when both
are provided. -/
theorem C1_cheb2_requires_rp_bug (order : ℕ) (rpv rsv : ℝ) :
    protoStage 1 none (some 3) (some FilterType.ChebyshevII)
        = Except.error
            "stopband attenuation (rs) must be provided to design an Chebyshev II filter."
      ∧ protoStage 1 (some 3) none (some FilterType.ChebyshevII)
        = Except.error "called Option::unwrap on a None value"
      ∧ protoStage order (some rpv) (some rsv) (some FilterType.ChebyshevII)
        = Except.ok (cheb2ap_dyn order rsv) :=
  ⟨rfl, rfl, rfl⟩

/-! ### C6: frequency normalization and pre-warping -/

/-- C6: with `fs` given, each `wn_i` is first replaced by `2·wn_i/fs`; for a
digital design (`analog` false or absent) each normalized `wn_i` must lie in
`(0, 1)` or the stage is fatal, the reference rate is `fs' = 2` and the warped
frequencies are `2·fs'·tan(π·wn_i/fs')`; for an analog design the warped
frequencies equal `wn` and `fs'` is the given `fs`, defaulting to 1. -/
theorem C6_prewarp (wn : List ℝ) (fsv : ℝ) (fs : Option ℝ) (order : ℕ)
    (rp rs : Option ℝ) (btype : Option FilterBandType) (ftype : Option FilterType) :
    (iirfilter_stages order wn rp rs btype ftype none fs
        = iirfilter_stages order wn rp rs btype ftype (some false) fs)
  ∧ (wn.length ≤ 2 →
      validateWn wn false (some fsv) = validateWnChecks (wn.map fun wni => 2 * wni / fsv))
  ∧ ((∃ wi ∈ wn, wi ≤ 0 ∨ 1 ≤ wi) → ∃ msg, warpStage wn false fs = Except.error msg)
  ∧ ((∀ wi ∈ wn, 0 < wi ∧ wi < 1) →
      warpStage wn false fs
        = Except.ok (2, wn.map fun wni => 2 * 2 * Real.tan (Real.pi * wni / 2)))
  ∧ warpStage wn true (some fsv) = Except.ok (fsv, wn)
  ∧ warpStage wn true none = Except.ok (1, wn) := by
  refine ⟨rfl, ?_, ?_, ?_, rfl, rfl⟩
  · intro h
    rw [validateWn, if_neg (by omega), if_neg (by simp), normWn]
  · intro h
    exact ⟨digitalWnErrMsg fs, by rw [warpStage, if_pos rfl, if_pos h]⟩
  · intro h
    rw [warpStage, if_pos rfl, if_neg ?_]
    rintro ⟨wi, hwi, hor⟩
    rcases h wi hwi with ⟨h1, h2⟩
    rcases hor with h3 | h3 <;> linarith

/-- Witness for C6 at `wn = [1/2]`. -/
theorem C6_prewarp_witness :
    warpStage [(1 / 2 : ℝ)] false none
      = Except.ok (2, [(1 / 2 : ℝ)].map fun wni => 2 * 2 * Real.tan (Real.pi * wni / 2)) :=
  (C6_prewarp [(1 / 2 : ℝ)] 1 none 0 none none none none).2.2.2.1
    (by
      intro wi hwi
      rw [List.mem_singleton] at hwi
      subst hwi
      norm_num)

theorem bandStage_none (zpk : ZpkFormatFilter) (wn warped : List ℝ) :
    bandStage zpk none wn warped
      = bandStage zpk (some FilterBandType.Bandpass) wn warped := rfl

theorem bandStage_lowpass (zpk : ZpkFormatFilter) (wn warped : List ℝ) :
    bandStage zpk (some FilterBandType.Lowpass) wn warped
      = if wn.length ≠ 1 then
          Except.error "Must specify a single critical frequency Wn for lowpass or highpass filter"
        else Except.ok (BandTransformCall.lp2lp zpk (warped.getD 0 0)) := rfl

theorem bandStage_highpass (zpk : ZpkFormatFilter) (wn warped : List ℝ) :
    bandStage zpk (some FilterBandType.Highpass) wn warped
      = if wn.length ≠ 1 then
          Except.error "Must specify a single critical frequency Wn for lowpass or highpass filter"
        else Except.ok (BandTransformCall.lp2hp zpk (warped.getD 0 0)) := rfl

theorem bandStage_bandpass (zpk : ZpkFormatFilter) (wn warped : List ℝ) :
    bandStage zpk (some FilterBandType.Bandpass) wn warped
      = if wn.length ≠ 2 then
          Except.error "Wn must specify start and stop frequencies for bandpass or bandstop filter"
        else
          Except.ok (BandTransformCall.lp2bp zpk
            (Real.sqrt (warped.getD 0 0 * warped.getD 1 0))
            (warped.getD 1 0 - warped.getD 0 0)) := rfl

theorem bandStage_bandstop (zpk : ZpkFormatFilter) (wn warped : List ℝ) :
    bandStage zpk (some FilterBandType.Bandstop) wn warped
      = if wn.length ≠ 2 then
          Except.error "Wn must specify start and stop frequencies for bandpass or bandstop filter"
        else
          Except.ok (BandTransformCall.lp2bs zpk
            (Real.sqrt (warped.getD 0 0 * warped.getD 1 0))
            (warped.getD 1 0 - warped.getD 0 0)) := rfl

/-! ### C7: band-transform dispatch -/

/-- C7: `btype` defaults to Bandpass; Lowpass/Highpass require exactly one
critical frequency and pass `warped[0]` to `lp2lp`/`lp2hp`; Bandpass/Bandstop
require exactly two and pass `wo = sqrt(warped[0]·warped[1])`,
`bw = warped[1] - warped[0]` to `lp2bp`/`lp2bs`. -/
theorem C7_band_transform (zpk : ZpkFormatFilter) (wn warped : List ℝ) :
    bandStage zpk none wn warped = bandStage zpk (some FilterBandType.Bandpass) wn warped
  ∧ (wn.length = 1 → bandStage zpk (some FilterBandType.Lowpass) wn warped
      = Except.ok (BandTransformCall.lp2lp zpk (warped.getD 0 0)))
  ∧ (wn.length ≠ 1 →
      ∃ msg, bandStage zpk (some FilterBandType.Lowpass) wn warped = Except.error msg)
  ∧ (wn.length = 1 → bandStage zpk (some FilterBandType.Highpass) wn warped
      = Except.ok (BandTransformCall.lp2hp zpk (warped.getD 0 0)))
  ∧ (wn.length ≠ 1 →
      ∃ msg, bandStage zpk (some FilterBandType.Highpass) wn warped = Except.error msg)
  ∧ (wn.length = 2 → bandStage zpk (some FilterBandType.Bandpass) wn warped
      = Except.ok (BandTransformCall.lp2bp zpk
          (Real.sqrt (warped.getD 0 0 * warped.getD 1 0)) (warped.getD 1 0 - warped.getD 0 0)))
  ∧ (wn.length ≠ 2 →
      ∃ msg, bandStage zpk (some FilterBandType.Bandpass) wn warped = Except.error msg)
  ∧ (wn.length = 2 → bandStage zpk (some FilterBandType.Bandstop) wn warped
      = Except.ok (BandTransformCall.lp2bs zpk
          (Real.sqrt (warped.getD 0 0 * warped.getD 1 0)) (warped.getD 1 0 - warped.getD 0 0)))
  ∧ (wn.length ≠ 2 →
      ∃ msg, bandStage zpk (some FilterBandType.Bandstop) wn warped = Except.error msg) := by
  refine ⟨rfl, ?_, ?_, ?_, ?_, ?_, ?_, ?_, ?_⟩
  · intro h
    rw [bandStage_lowpass, if_neg (by omega)]
  · intro h
    exact ⟨_, by rw [bandStage_lowpass, if_pos h]⟩
  · intro h
    rw [bandStage_highpass, if_neg (by omega)]
  · intro h
    exact ⟨_, by rw [bandStage_highpass, if_pos h]⟩
  · intro h
    rw [bandStage_bandpass, if_neg (by omega)]
  · intro h
    exact ⟨_, by rw [bandStage_bandpass, if_pos h]⟩
  · intro h
    rw [bandStage_bandstop, if_neg (by omega)]
  · intro h
    exact ⟨_, by rw [bandStage_bandstop, if_pos h]⟩

/-- Witness for C7: a bandpass dispatch at `wn = [1, 2]`, `warped = [3, 4]`. -/
theorem C7_band_transform_witness :
    bandStage ⟨[], [], 1⟩ (some FilterBandType.Bandpass) [1, 2] [3, 4]
      = Except.ok (BandTransformCall.lp2bp ⟨[], [], 1⟩
          (Real.sqrt (([3, 4] : List ℝ).getD 0 0 * ([3, 4] : List ℝ).getD 1 0))
          (([3, 4] : List ℝ).getD 1 0 - ([3, 4] : List ℝ).getD 0 0)) :=
  (C7_band_transform ⟨[], [], 1⟩ [1, 2] [3, 4]).2.2.2.2.2.1 rfl

/-! ### C8: individual rejection of invalid arguments -/

/-- C8: each invalid input is rejected with the panic message naming the
offending argument — overlong `wn`, `fs` together with `analog = true`,
nonpositive `wn_i` (also after `fs` normalization), out-of-order two-element
`wn`, negative `rp`, negative `rs` — while the boundary values `rp = 0` and
`rs = 0` pass the ripple checks. -/
theorem C8_validation (wn : List ℝ) (analogb : Bool) (fs : Option ℝ) (fsv : ℝ)
    (rp rs : Option ℝ) (rpv rsv : ℝ) :
    (wn.length > 2 → validateWn wn analogb fs = Except.error "Wn may be of len 1 or 2")
  ∧ (wn.length ≤ 2 → validateWn wn true (some fsv)
      = Except.error "fs cannot be specified for an analog filter")
  ∧ ((∃ wi ∈ wn, wi ≤ 0) → wn.length ≤ 2 →
      validateWn wn analogb none
        = Except.error "filter critical frequencies must be greater than 0")
  ∧ ((∃ wi ∈ wn, 2 * wi / fsv ≤ 0) → wn.length ≤ 2 →
      validateWn wn false (some fsv)
        = Except.error "filter critical frequencies must be greater than 0")
  ∧ (wn.length = 2 → (∀ wi ∈ wn, 0 < wi) → wn.getD 0 0 ≥ wn.getD 1 0 →
      validateWn wn analogb none = Except.error "Wn[0] must be less than Wn[1]")
  ∧ (rpv < 0 → rippleCheck (some rpv) rs = Except.error "passband ripple (rp) must be positive")
  ∧ ((∀ v ∈ rp, 0 ≤ v) → rsv < 0 →
      rippleCheck rp (some rsv) = Except.error "stopband attenuation (rs) must be positive")
  ∧ rippleCheck (some 0) (some 0) = Except.ok () := by
  refine ⟨?_, ?_, ?_, ?_, ?_, ?_, ?_, ?_⟩
  · intro h
    rw [validateWn, if_pos h]
  · intro h
    rw [validateWn, if_neg (by omega), if_pos (by simp)]
  · intro h hlen
    rw [validateWn, if_neg (by omega), if_neg (by simp), normWn, validateWnChecks, if_pos h]
  · intro h hlen
    rw [validateWn, if_neg (by omega), if_neg (by simp), normWn, validateWnChecks, if_pos ?_]
    obtain ⟨wi, hwi, hle⟩ := h
    exact ⟨2 * wi / fsv, List.mem_map.mpr ⟨wi, hwi, rfl⟩, hle⟩
  · intro hlen hpos hord
    rw [validateWn, if_neg (by omega), if_neg (by simp), normWn, validateWnChecks,
      if_neg ?_, if_pos ⟨by omega, hord⟩]
    rintro ⟨wi, hwi, hle⟩
    exact absurd hle (hpos wi hwi).not_le
  · intro h
    rw [rippleCheck, rpCheck]
    rw [if_pos h]
  · intro hrp h
    have hok : rpCheck rp = Except.ok () := by
      rcases rp with _ | v
      · rfl
      · rw [rpCheck, if_neg (not_lt.mpr (hrp v rfl))]
    rw [rippleCheck, hok, rsCheck, if_pos h]
  · rw [rippleCheck, rpCheck, if_neg (lt_irrefl (0 : ℝ)), rsCheck,
      if_neg (lt_irrefl (0 : ℝ))]

/-- Witness for C8: an overlong `wn` is rejected. -/
theorem C8_validation_witness :
    validateWn [1, 2, 3] false none = Except.error "Wn may be of len 1 or 2" :=
  (C8_validation [1, 2, 3] false none 1 none none 0 0).1 (by norm_num)

/-! ### C9: axis validation in `axis_slice` -/

/-- Resolution outcome of the `axis` argument in `axis_slice`
(arraytools.rs lines 154-179): a resolved non-negative axis index, the
structured invalid-argument error of `sci-rs-core::Error::InvalidArg`, or a
Rust panic. -/
inductive AxisResolveResult where
  | ok (axis : ℕ)
  | invalidArg (arg : String) (reason : String)
  | panicked (msg : String)
deriving DecidableEq

/-- The out-of-range test of `axis_slice` for a statically known
dimensionality `N` (`axis.is_some_and(...)`). -/
def axisOutOfRange (N : ℕ) (axis : Option ℤ) : Bool :=
  match axis with
  | none => false
  | some a => !(if a < 0 then decide (a.natAbs ≤ N) else decide (a.natAbs < N))

/-- The axis validation and conversion block of `axis_slice` for a
statically-dimensioned array (`D::NDIM = Some N`, `a.ndim() = N`). -/
def axisResolve (N : ℕ) (axis : Option ℤ) : AxisResolveResult :=
  if axisOutOfRange N axis then
    AxisResolveResult.invalidArg "axis" "index out of range."
  else
    let axisInner : ℤ := axis.getD (-1)
    if 0 ≤ axisInner then AxisResolveResult.ok axisInner.natAbs
    else if (N : ℤ) + axisInner < 0 then
      AxisResolveResult.panicked "Invalid add to axis option"
    else AxisResolveResult.ok ((N : ℤ) + axisInner).toNat

/-- C9: for a statically-dimensioned array of dimensionality `N`, the axis
check of `axis_slice` returns (rather than aborts with) the structured
invalid-argument error naming `axis` exactly when the axis lies outside
`-N ≤ axis < N`; every in-range axis (negative indexing included, and the
default `-1` for `None` whenever it is in range) resolves without an axis
error. -/
theorem C9_axis_slice (N : ℕ) :
    (∀ a : ℤ, (a < -(N : ℤ) ∨ (N : ℤ) ≤ a) →
        axisResolve N (some a) = AxisResolveResult.invalidArg "axis" "index out of range.")
  ∧ (∀ a : ℤ, -(N : ℤ) ≤ a → a < (N : ℤ) →
        ∃ k : ℕ, axisResolve N (some a) = AxisResolveResult.ok k)
  ∧ (1 ≤ N → ∃ k : ℕ, axisResolve N none = AxisResolveResult.ok k) := by
  refine ⟨?_, ?_, ?_⟩
  · intro a ha
    have hbool : axisOutOfRange N (some a) = true := by
      simp only [axisOutOfRange]
      by_cases hneg : a < 0
      · rw [if_pos hneg]
        simp only [Bool.not_eq_true', decide_eq_false_iff_not]
        omega
      · rw [if_neg hneg]
        simp only [Bool.not_eq_true', decide_eq_false_iff_not]
        omega
    rw [axisResolve, if_pos hbool]
  · intro a hlo hhi
    have hbool : axisOutOfRange N (some a) = false := by
      simp only [axisOutOfRange]
      by_cases hneg : a < 0
      · rw [if_pos hneg]
        simp only [Bool.not_eq_false', decide_eq_true_eq]
        omega
      · rw [if_neg hneg]
        simp only [Bool.not_eq_false', decide_eq_true_eq]
        omega
    by_cases hpos : 0 ≤ a
    · refine ⟨a.natAbs, ?_⟩
      rw [axisResolve, if_neg (by rw [hbool]; exact Bool.false_ne_true)]
      simp only [Option.getD_some]
      rw [if_pos hpos]
    · refine ⟨((N : ℤ) + a).toNat, ?_⟩
      rw [axisResolve, if_neg (by rw [hbool]; exact Bool.false_ne_true)]
      simp only [Option.getD_some]
      rw [if_neg hpos, if_neg (by omega)]
  · intro hN
    refine ⟨((N : ℤ) + -1).toNat, ?_⟩
    rw [axisResolve, if_neg (by exact Bool.false_ne_true)]
    simp only [Option.getD_none]
    rw [if_neg (by omega), if_neg (by omega)]

/-- Witness for C9 at `N = 2`, `axis = -1`. -/
theorem C9_axis_slice_witness :
    ∃ k : ℕ, axisResolve 2 (some (-1)) = AxisResolveResult.ok k :=
  (C9_axis_slice 2).2.1 (-1) (by norm_num) (by norm_num)

end SciRs
